import Mathlib

/-!
A shallow embedding of the diagram layout and interaction engine of the
Lucefact repository (the `Visualizer` class of the visualizer module and
the `handleLayerSelection` handler of the application module), together
with theorems settling the specification's claims about it.

JavaScript numbers are modelled as `JSNum`: exact rationals extended with
`nan` and the two infinities, so that division by zero behaves as in the
source language.  Geometry that the source computes with trigonometric
functions is modelled over the reals.
-/

namespace Lucefact

/-- Model of a JavaScript number: an exact rational, `NaN`, `Infinity`
or `-Infinity`.  Exactness of rationals is irrelevant for the claims
settled here (every refuting computation stays on the values `0`); the
special values are what matters. -/
inductive JSNum where
  | num (q : ℚ)
  | nan
  | inf
  | ninf
deriving DecidableEq

/-- JavaScript addition on `JSNum`. -/
def JSNum.add : JSNum → JSNum → JSNum
  | .num a, .num b => .num (a + b)
  | .nan, _ => .nan
  | _, .nan => .nan
  | .inf, .ninf => .nan
  | .ninf, .inf => .nan
  | .inf, _ => .inf
  | _, .inf => .inf
  | .ninf, _ => .ninf
  | _, .ninf => .ninf

/-- JavaScript multiplication on `JSNum` (`0 * ±Infinity = NaN`). -/
def JSNum.mul : JSNum → JSNum → JSNum
  | .num a, .num b => .num (a * b)
  | .nan, _ => .nan
  | _, .nan => .nan
  | .inf, .num a => if a = 0 then .nan else if 0 < a then .inf else .ninf
  | .num a, .inf => if a = 0 then .nan else if 0 < a then .inf else .ninf
  | .ninf, .num a => if a = 0 then .nan else if 0 < a then .ninf else .inf
  | .num a, .ninf => if a = 0 then .nan else if 0 < a then .ninf else .inf
  | .inf, .inf => .inf
  | .ninf, .ninf => .inf
  | .inf, .ninf => .ninf
  | .ninf, .inf => .ninf

/-- JavaScript division on `JSNum`; in particular `0 / 0 = NaN`. -/
def JSNum.div : JSNum → JSNum → JSNum
  | .num a, .num b =>
      if b = 0 then (if a = 0 then .nan else if 0 < a then .inf else .ninf)
      else .num (a / b)
  | .nan, _ => .nan
  | _, .nan => .nan
  | .inf, .inf => .nan
  | .inf, .ninf => .nan
  | .ninf, .inf => .nan
  | .ninf, .ninf => .nan
  | .inf, .num a => if 0 ≤ a then .inf else .ninf
  | .ninf, .num a => if 0 ≤ a then .ninf else .inf
  | .num _, .inf => .num 0
  | .num _, .ninf => .num 0

/-- Model of `Math.max(...xs)`: `-Infinity` on the empty argument list, otherwise
the maximum. -/
def jsMaxList : List ℚ → JSNum
  | [] => .ninf
  | a :: rest =>
      match jsMaxList rest with
      | .num b => .num (max a b)
      | _ => .num a

/-- One layer record of a model (the fields of `ModelLayer` that the
layout engine reads: `name`, `type`, `parameters`, optional
`activation`). -/
structure ModelLayer where
  name : String
  type : String
  parameters : ℚ
  activation : Option String := none
deriving DecidableEq

/-- The model descriptor consumed by the visualizer: its ordered layer
list. -/
structure ModelMetadata where
  layers : List ModelLayer
deriving DecidableEq

/-- Source expression `Math.max(...metadata.layers.map(l => l.parameters))` from
`createLayerNode`. -/
def maxParams (metadata : ModelMetadata) : JSNum :=
  jsMaxList (metadata.layers.map (fun l => l.parameters))

/-- Source expression `layer.parameters / maxParams` from `createLayerNode` (no guard in
the source: the division is performed as written). -/
def relativeSize (layer : ModelLayer) (metadata : ModelMetadata) : JSNum :=
  JSNum.div (.num layer.parameters) (maxParams metadata)

/-- Node width from `createLayerNode`:
`minWidth + (maxWidth - minWidth) * relativeSize`, with range
`[280, 350]` for the horizontal layout and `[300, 500]` otherwise. -/
def nodeWidth (layout : String) (layer : ModelLayer) (metadata : ModelMetadata) : JSNum :=
  if layout = "horizontal" then
    JSNum.add (.num 280) (JSNum.mul (.num (350 - 280)) (relativeSize layer metadata))
  else
    JSNum.add (.num 300) (JSNum.mul (.num (500 - 300)) (relativeSize layer metadata))

/-- Size-bar width from `createLayerNode`: `relativeSize * 100` (a CSS
percentage). -/
def sizeBarPercent (layer : ModelLayer) (metadata : ModelMetadata) : JSNum :=
  JSNum.mul (relativeSize layer metadata) (.num 100)

/-- A concrete model whose layers all report zero parameters. -/
def zeroParamsModel : ModelMetadata :=
  { layers := [ { name := "a", type := "Dense", parameters := 0 },
                { name := "b", type := "Dense", parameters := 0 } ] }

/-- C1: for the two-layer model whose layers both report `parameters = 0`
(so `maxParams = 0`), the sizing computation of `createLayerNode`
performs the division `0 / 0`, so `relativeSize` is `NaN` — not `0` as
the specification claims — and the node width under both sizing branches
and the size-bar percentage are `NaN` as well: the placements are
degenerate. -/
theorem C1_zero_maxParams_gives_nan :
    maxParams zeroParamsModel = JSNum.num 0 ∧
    relativeSize { name := "a", type := "Dense", parameters := 0 } zeroParamsModel
      = JSNum.nan ∧
    nodeWidth ("horizontal") { name := "a", type := "Dense", parameters := 0 }
      zeroParamsModel = JSNum.nan ∧
    nodeWidth ("vertical") { name := "a", type := "Dense", parameters := 0 }
      zeroParamsModel = JSNum.nan ∧
    sizeBarPercent { name := "a", type := "Dense", parameters := 0 } zeroParamsModel
      = JSNum.nan := by
  refine ⟨rfl, rfl, rfl, rfl, rfl⟩

/-- The two CSS classes that `search` manipulates on a rendered node. -/
structure NodeClasses where
  dimmed : Bool
  highlighted : Bool
deriving DecidableEq

/-- A fresh node carries neither class. -/
def NodeClasses.neutral : NodeClasses := { dimmed := false, highlighted := false }

/-- One child element of the visualization container, in document order:
a layer node (with the index it was created with and its current search
classes), a vertical connector div, a horizontal arrow span, or a
circular connection line recorded by the indices of its two endpoint
nodes. -/
inductive VizElem where
  | node (layer : ModelLayer) (index : ℕ) (cls : NodeClasses)
  | connector
  | arrow
  | line (fromIdx toIdx : ℕ)
deriving DecidableEq

/-- The layer of a node element, if the element is a node. -/
def VizElem.nodeLayer : VizElem → Option ModelLayer
  | .node l _ _ => some l
  | _ => none

/-- The `.layer-node` elements of a container, in document order,
projected to their layers. -/
def nodesOf (es : List VizElem) : List ModelLayer :=
  es.filterMap VizElem.nodeLayer

/-- Whether an element is a vertical connector. -/
def VizElem.isConnector : VizElem → Bool
  | .connector => true
  | _ => false

/-- Whether an element is a horizontal arrow marker. -/
def VizElem.isArrow : VizElem → Bool
  | .arrow => true
  | _ => false

/-- Whether an element is a circular connection line. -/
def VizElem.isLine : VizElem → Bool
  | .line _ _ => true
  | _ => false

/-- Loop body of `renderVerticalLayout`: for each layer at position `i`,
a connector is appended first when `i > 0`, then the node. -/
def verticalElemsAux : List ModelLayer → ℕ → List VizElem
  | [], _ => []
  | l :: rest, i =>
      (if 0 < i then [VizElem.connector] else []) ++
        [VizElem.node l i NodeClasses.neutral] ++ verticalElemsAux rest (i + 1)

/-- Container contents produced by `renderVerticalLayout`. -/
def verticalElems (layers : List ModelLayer) : List VizElem :=
  verticalElemsAux layers 0

/-- Loop body of `renderHorizontalLayout`: for each layer at position
`i`, an arrow span is appended first when `i > 0`, then the node. -/
def horizontalElemsAux : List ModelLayer → ℕ → List VizElem
  | [], _ => []
  | l :: rest, i =>
      (if 0 < i then [VizElem.arrow] else []) ++
        [VizElem.node l i NodeClasses.neutral] ++ horizontalElemsAux rest (i + 1)

/-- Container contents produced by `renderHorizontalLayout`. -/
def horizontalElems (layers : List ModelLayer) : List VizElem :=
  horizontalElemsAux layers 0

/-- Loop body of `renderCircularLayout` (`n` is the total layer count):
each layer appends its node and, when `i < n - 1`, the connection line
from node `i` to node `i + 1`. -/
def circularElemsAux : List ModelLayer → ℕ → ℕ → List VizElem
  | [], _, _ => []
  | l :: rest, i, n =>
      [VizElem.node l i NodeClasses.neutral] ++
        (if i < n - 1 then [VizElem.line i (i + 1)] else []) ++
        circularElemsAux rest (i + 1) n

/-- Container contents produced by `renderCircularLayout`. -/
def circularElems (layers : List ModelLayer) : List VizElem :=
  circularElemsAux layers 0 layers.length

/-- Key-accumulating step of `renderTreeLayout`'s `layersByType` object:
a new key is appended at the end on its first occurrence. -/
def addType (acc : List String) (l : ModelLayer) : List String :=
  if l.type ∈ acc then acc else acc ++ [l.type]

/-- The distinct layer types in first-occurrence order (the key
insertion order of the `layersByType` record). -/
def treeTypes (layers : List ModelLayer) : List String :=
  layers.foldl addType []

/-- The groups of `renderTreeLayout`: for each type in first-occurrence
order, the layers of that type in original order. -/
def treeGroups (layers : List ModelLayer) : List (String × List ModelLayer) :=
  (treeTypes layers).map (fun t => (t, layers.filter (fun l => l.type == t)))

/-- Container node contents produced by `renderTreeLayout`, in document
order: the groups in key order, each group's layers in original order,
each node created with its index within the group. -/
def treeElems (layers : List ModelLayer) : List VizElem :=
  (treeGroups layers).flatMap
    (fun g => (g.2.enum).map (fun p => VizElem.node p.2 p.1 NodeClasses.neutral))

/-- The `switch (this.currentLayout)` of `visualize`: one of the four
renderers fills the container; any other kind matches no case and the
container stays empty. -/
def layoutElems (layout : String) (m : ModelMetadata) : List VizElem :=
  if layout = "vertical" then verticalElems m.layers
  else if layout = "horizontal" then horizontalElems m.layers
  else if layout = "circular" then circularElems m.layers
  else if layout = "tree" then treeElems m.layers
  else []

/-- The mutable fields of the `Visualizer` class that the claims are
about, plus the rendered container contents. -/
structure VizState where
  scale : ℚ
  translateX : ℚ
  translateY : ℚ
  isDragging : Bool
  currentLayout : String
  currentMetadata : Option ModelMetadata
  searchTerm : String
  containerElems : List VizElem
deriving DecidableEq

/-- Method `visualize(metadata, layout?)`: stores the metadata, overwrites the
current layout kind when the `layout` argument is truthy (in JavaScript
`undefined` and the empty string are falsy), clears the canvas and
renders the container contents for the resulting kind.  The scale,
translation and stored search term are not touched. -/
def visualize (st : VizState) (m : ModelMetadata) (layout : Option String) : VizState :=
  let cl :=
    match layout with
    | some k => if k = "" then st.currentLayout else k
    | none => st.currentLayout
  { st with
      currentMetadata := some m
      currentLayout := cl
      containerElems := layoutElems cl m }

/-- Method `setLayout(layout)`: re-visualizes with the new kind when a model is
loaded, otherwise does nothing. -/
def setLayout (st : VizState) (layout : String) : VizState :=
  match st.currentMetadata with
  | some m => visualize st m (some layout)
  | none => st

/-- Method `reset()`: restores scale 1 and zero translation (nothing else). -/
def reset (st : VizState) : VizState :=
  { st with scale := 1, translateX := 0, translateY := 0 }

/-- Scale update of `zoom(direction)`: `'in'` adds 0.1 capped at 2,
anything else subtracts 0.1 floored at 0.5. -/
def zoomStep (direction : String) (s : ℚ) : ℚ :=
  if direction = "in" then min 2 (s + 1 / 10) else max (1 / 2) (s - 1 / 10)

/-- Method `zoom(direction)`: updates only the scale; the drag state and every
other field are untouched. -/
def zoom (direction : String) (st : VizState) : VizState :=
  { st with scale := zoomStep direction st.scale }

/-- A sequence of `zoom` calls applied to a scale value. -/
def applyZooms (dirs : List String) (s : ℚ) : ℚ :=
  dirs.foldl (fun acc d => zoomStep d acc) s

/-- Contiguous substring scan: does `needle` start at some position of
the second list? -/
def strIncludesAux (needle : List Char) : List Char → Bool
  | [] => needle.isEmpty
  | c :: rest => needle.isPrefixOf (c :: rest) || strIncludesAux needle rest

/-- JavaScript `hay.includes(needle)` on strings. -/
def strIncludes (hay needle : String) : Bool :=
  strIncludesAux needle.data hay.data

/-- JavaScript `s.toLowerCase()` (on the basic latin letters the models
use): lowercase every character. -/
def jsToLower (s : String) : String :=
  String.mk (s.data.map Char.toLower)

/-- Per-node effect of one `search(term)` call: the matching branch
removes `dimmed` and adds `highlighted` exactly when the term is
non-empty; the non-matching branch adds `dimmed` and removes
`highlighted`.  Matching lowercases the term, the layer name and the
layer type. -/
def searchClassify (term name ty : String) (_c : NodeClasses) : NodeClasses :=
  let searchTerm := jsToLower term
  if term = "" || strIncludes (jsToLower name) searchTerm
      || strIncludes (jsToLower ty) searchTerm
  then { dimmed := false, highlighted := term != "" }
  else { dimmed := true, highlighted := false }

/-- Effect of one `search(term)` call on one container element: node
elements are reclassified, everything else is untouched. -/
def searchElem (term : String) : VizElem → VizElem
  | .node l i c => .node l i (searchClassify term l.name l.type c)
  | e => e

/-- Method `search(term)` on the visualizer: stores the lowercased term and
reclassifies every rendered node; nothing else changes. -/
def search (st : VizState) (term : String) : VizState :=
  { st with
      searchTerm := jsToLower term
      containerElems := st.containerElems.map (searchElem term) }

/-- A container element with its search classes erased — the placement
content that `search` must not disturb. -/
def eraseCls : VizElem → VizElem
  | .node l i _ => .node l i NodeClasses.neutral
  | x => x

/-- Effect of `node.classList.toggle('selected')` over the set of selected node
positions. -/
def toggleSel (s : Finset ℕ) (i : ℕ) : Finset ℕ :=
  if i ∈ s then s.erase i else insert i s

/-- Source expression `metadata.layers.find(l => l.name === name)` from the click
handler. -/
def resolveLayer (m : ModelMetadata) (name : String) : Option ModelLayer :=
  m.layers.find? (fun l => l.name == name)

/-- Result of `querySelectorAll('.layer-node.selected')` over a node list in
document order: the nodes whose position is selected, kept in document
order. -/
def selectedInOrder (domNodes : List ModelLayer) (s : Finset ℕ) : List ModelLayer :=
  ((domNodes.enum).filter (fun p => decide (p.1 ∈ s))).map Prod.snd

/-- Source expression `selectedLayers.map(n => metadata.layers.find(...)).filter(Boolean)`
from the click handler. -/
def resolveAll (m : ModelMetadata) (sel : List ModelLayer) : List ModelLayer :=
  (sel.map (fun l => resolveLayer m l.name)).reduceOption

/-- An event dispatched on the canvas by a node's click handler. -/
inductive VizEvent where
  | layerClick (layer : ModelLayer)
  | layerSelection (count : ℕ) (layers : List ModelLayer)
deriving DecidableEq

/-- The click handler installed by `createLayerNode` on the node at
document position `i` holding `layer`: a double activation
(`detail === 2`) dispatches `layerClick` with that layer and returns
without toggling; a single activation toggles the node's selected class
and dispatches `layerSelection` with the count of selected nodes and
the name-resolved records of the selected nodes in document order. -/
def clickNode (m : ModelMetadata) (domNodes : List ModelLayer) (s : Finset ℕ)
    (i : ℕ) (layer : ModelLayer) (detail : ℕ) : Finset ℕ × VizEvent :=
  if detail = 2 then (s, .layerClick layer)
  else
    let s2 := toggleSel s i
    let sel := selectedInOrder domNodes s2
    (s2, .layerSelection sel.length (resolveAll m sel))

/-- What `handleLayerSelection` surfaces for a `layerSelection` event. -/
inductive SelectionOutcome where
  | comparison (layers : List ModelLayer)
  | overflowWarning
  | hidden
deriving DecidableEq

/-- Handler `handleLayerSelection(detail)` from the application module: counts 2
and 3 open the comparison modal with the carried records, counts above 3
show a warning toast, counts 0 and 1 hide the modal.  The handler never
modifies the selection. -/
def handleLayerSelection (count : ℕ) (layers : List ModelLayer) : SelectionOutcome :=
  if 2 ≤ count ∧ count ≤ 3 then .comparison layers
  else if 3 < count then .overflowWarning
  else .hidden

/-- Source expression `radius = Math.min(300, Math.max(200, layerCount * 15))` from
`renderCircularLayout`. -/
def circleRadius (n : ℕ) : ℚ :=
  min 300 (max 200 ((n : ℚ) * 15))

/-- Source expression `size = (radius * 2) + nodeSize + padding` with `nodeSize = 150`
and `padding = 100`; the container is a square of this side. -/
def circleSize (n : ℕ) : ℚ :=
  circleRadius n * 2 + 150 + 100

/-- Source expression `angle = (index / layerCount) * 2π - π/2` from
`renderCircularLayout`. -/
noncomputable def circleAngle (n i : ℕ) : ℝ :=
  ((i : ℝ) / (n : ℝ)) * (2 * Real.pi) - Real.pi / 2

/-- Center of the circular layout: `centerX = centerY = size / 2`. -/
def circleCenter (n : ℕ) : ℚ :=
  circleSize n / 2

/-- Position of node `i` in the circular layout:
`center + radius * (cos angle, sin angle)`. -/
noncomputable def circlePos (n i : ℕ) : ℝ × ℝ :=
  ((circleCenter n : ℝ) + (circleRadius n : ℝ) * Real.cos (circleAngle n i),
   (circleCenter n : ℝ) + (circleRadius n : ℝ) * Real.sin (circleAngle n i))

/-- Model of `Math.atan2(y, x)`: the argument of the complex number
`x + y·i`. -/
noncomputable def mathAtan2 (y x : ℝ) : ℝ :=
  Complex.arg ⟨x, y⟩

/-- Source expression `length = Math.sqrt((x2-x1)^2 + (y2-y1)^2)` from
`createConnectionLine`. -/
noncomputable def lineLength (x1 y1 x2 y2 : ℝ) : ℝ :=
  Real.sqrt ((x2 - x1) ^ 2 + (y2 - y1) ^ 2)

/-- Source expression `angle = Math.atan2(y2-y1, x2-x1) * 180 / Math.PI` from
`createConnectionLine` (the CSS rotation, in degrees). -/
noncomputable def lineAngleDeg (x1 y1 x2 y2 : ℝ) : ℝ :=
  mathAtan2 (y2 - y1) (x2 - x1) * 180 / Real.pi

lemma zoomStep_in (s : ℚ) : zoomStep ("in") s = min 2 (s + 1 / 10) := rfl

lemma zoomStep_out (s : ℚ) : zoomStep ("out") s = max (1 / 2) (s - 1 / 10) := rfl

lemma zoomStep_mem (d : String) (s : ℚ) (h1 : 1 / 2 ≤ s) (h2 : s ≤ 2) :
    1 / 2 ≤ zoomStep d s ∧ zoomStep d s ≤ 2 := by
  unfold zoomStep
  split
  · exact ⟨le_min (by norm_num) (by linarith), min_le_left _ _⟩
  · exact ⟨le_max_left _ _, max_le (by norm_num) (by linarith)⟩

lemma applyZooms_mem (dirs : List String) :
    ∀ s : ℚ, 1 / 2 ≤ s → s ≤ 2 → 1 / 2 ≤ applyZooms dirs s ∧ applyZooms dirs s ≤ 2 := by
  induction dirs with
  | nil => exact fun s h1 h2 => ⟨h1, h2⟩
  | cons d ds ih =>
      intro s h1 h2
      have h := zoomStep_mem d s h1 h2
      simpa only [applyZooms, List.foldl_cons] using ih (zoomStep d s) h.1 h.2

/-- C9: `zoom('in')` sets the scale to `min(2, scale + 0.1)` and
`zoom('out')` to `max(0.5, scale - 0.1)`, touching no other state (in
particular not the drag flag); twenty `zoom('in')` calls from scale 1
saturate at exactly 2, twenty `zoom('out')` calls at exactly 0.5, any
number of `zoom('in')` calls stays at or below 2, and every zoom
sequence from scale 1 stays inside `[0.5, 2]`. -/
theorem C9_zoom_clamped :
    (∀ s : ℚ, zoomStep ("in") s = min 2 (s + 1 / 10)) ∧
    (∀ s : ℚ, zoomStep ("out") s = max (1 / 2) (s - 1 / 10)) ∧
    (∀ (d : String) (st : VizState),
        zoom d st = { st with scale := zoomStep d st.scale }) ∧
    applyZooms (List.replicate 20 ("in")) 1 = 2 ∧
    applyZooms (List.replicate 20 ("out")) 1 = 1 / 2 ∧
    (∀ k : ℕ, applyZooms (List.replicate k ("in")) 1 ≤ 2) ∧
    (∀ dirs : List String, 1 / 2 ≤ applyZooms dirs 1 ∧ applyZooms dirs 1 ≤ 2) := by
  refine ⟨fun s => rfl, fun s => rfl, fun d st => rfl,
    by norm_num [applyZooms, List.replicate, zoomStep_in, min_def],
    by norm_num [applyZooms, List.replicate, zoomStep_out, max_def], ?_, ?_⟩
  · exact fun k => (applyZooms_mem (List.replicate k ("in")) 1 (by norm_num) (by norm_num)).2
  · exact fun dirs => applyZooms_mem dirs 1 (by norm_num) (by norm_num)

/-- C6: a single activation toggles the node's membership in the
selection, the toggle is an involution (`toggle (toggle S x) x = S`),
and a double activation (`detail = 2`) dispatches a `layerClick` detail
event for that one layer while leaving the selection untouched. -/
theorem C6_click_toggle_law :
    (∀ (m : ModelMetadata) (d : List ModelLayer) (s : Finset ℕ) (i : ℕ)
        (layer : ModelLayer), (clickNode m d s i layer 1).1 = toggleSel s i) ∧
    (∀ (s : Finset ℕ) (i : ℕ), toggleSel (toggleSel s i) i = s) ∧
    (∀ (m : ModelMetadata) (d : List ModelLayer) (s : Finset ℕ) (i : ℕ)
        (layer : ModelLayer), clickNode m d s i layer 2 = (s, VizEvent.layerClick layer)) := by
  refine ⟨fun m d s i layer => rfl, fun s i => ?_, fun m d s i layer => rfl⟩
  by_cases h : i ∈ s
  · unfold toggleSel
    rw [if_pos h, if_neg (Finset.not_mem_erase i s), Finset.insert_erase h]
  · unfold toggleSel
    rw [if_neg h, if_pos (Finset.mem_insert_self i s), Finset.erase_insert h]

/-- A one-layer model used in several concrete evaluations. -/
def mA : ModelMetadata :=
  { layers := [ { name := "conv1", type := "Conv2D", parameters := 5 } ] }

/-- A visualizer state with a non-identity view transform and a stored
search term. -/
def stC3 : VizState :=
  { scale := 3 / 2, translateX := 7, translateY := -4, isDragging := false,
    currentLayout := "vertical", currentMetadata := none, searchTerm := "conv",
    containerElems := [] }

/-- C3 counterexample: rendering a new model from a state whose scale is
3/2, whose translation is (7, -4) and whose search term is "conv"
leaves all of them exactly as they were — the transform is not reset to
`{1, 0, 0}` and the search term is not cleared. -/
theorem C3_counterexample :
    (visualize stC3 mA none).scale = 3 / 2 ∧ ((3 : ℚ) / 2 ≠ 1) ∧
    (visualize stC3 mA none).translateX = 7 ∧ ((7 : ℚ) ≠ 0) ∧
    (visualize stC3 mA none).searchTerm = "conv" ∧ ("conv" ≠ "") := by
  exact ⟨rfl, by norm_num, rfl, by norm_num, rfl, by decide⟩

/-- C3 amended: `visualize` replaces the model and the rendered
container wholesale (so node classes, selection included, start fresh)
but leaves the scale, the translation and the stored search term
unchanged; `{scale 1, translate (0,0)}` is restored only by the explicit
`reset()`, which itself leaves the search term alone. -/
theorem C3_render_preserves_transform :
    ∀ (st : VizState) (m : ModelMetadata) (layout : Option String),
      (visualize st m layout).scale = st.scale ∧
      (visualize st m layout).translateX = st.translateX ∧
      (visualize st m layout).translateY = st.translateY ∧
      (visualize st m layout).searchTerm = st.searchTerm ∧
      (visualize st m layout).currentMetadata = some m ∧
      (reset st).scale = 1 ∧ (reset st).translateX = 0 ∧
      (reset st).translateY = 0 ∧ (reset st).searchTerm = st.searchTerm := by
  exact fun st m layout => ⟨rfl, rfl, rfl, rfl, rfl, rfl, rfl, rfl, rfl⟩

/-- A state that has rendered the one-layer model under the vertical
layout. -/
def stC2 : VizState :=
  { scale := 1, translateX := 0, translateY := 0, isDragging := false,
    currentLayout := "vertical", currentMetadata := some mA, searchTerm := "",
    containerElems := layoutElems ("vertical") mA }

/-- C2 counterexample: calling `setLayout` with the out-of-enumeration
kind "banana" on a state holding a rendered one-node vertical layout is
not rejected: it empties the container (the previously rendered
placement is lost) and records "banana" as the current layout. -/
theorem C2_counterexample :
    stC2.containerElems ≠ [] ∧
    (setLayout stC2 ("banana")).containerElems = [] ∧
    (setLayout stC2 ("banana")).currentLayout = "banana" ∧
    setLayout stC2 ("banana") ≠ stC2 := by
  refine ⟨by decide, rfl, rfl, by decide⟩

/-- C2 amended: a layout kind outside the enumeration is not rejected.
With a model loaded, a non-empty invalid kind is stored as the current
layout and the container is re-rendered empty, losing the existing
placements; with no model loaded the call is a no-op; the empty-string
kind is falsy, so it keeps the previous kind (a plain re-render). -/
theorem C2_invalid_layout_clears :
    (∀ (st : VizState) (k : String) (m : ModelMetadata),
        st.currentMetadata = some m →
        k ∉ (["vertical", "horizontal", "circular", "tree"] : List String) →
        k ≠ "" →
        setLayout st k =
          { st with currentMetadata := some m, currentLayout := k,
                    containerElems := [] }) ∧
    (∀ (st : VizState) (k : String), st.currentMetadata = none → setLayout st k = st) ∧
    (∀ (st : VizState) (m : ModelMetadata), st.currentMetadata = some m →
        setLayout st ("") = visualize st m none) := by
  refine ⟨?_, ?_, ?_⟩
  · intro st k m hm hk hne
    simp only [List.mem_cons, List.not_mem_nil, or_false, not_or] at hk
    obtain ⟨h1, h2, h3, h4⟩ := hk
    simp [setLayout, hm, visualize, layoutElems, hne, h1, h2, h3, h4]
  · intro st k h
    simp [setLayout, h]
  · intro st m hm
    simp [setLayout, hm, visualize]

/-- C2 witness: the amended statement evaluated on the concrete rendered
state and the kind "banana". -/
theorem C2_invalid_layout_clears_witness :
    (setLayout stC2 ("banana")).containerElems = [] := by
  have h := C2_invalid_layout_clears.1 stC2 ("banana") mA rfl (by decide) (by decide)
  rw [h]

lemma map_eraseCls_searchElem (term : String) (es : List VizElem) :
    (es.map (searchElem term)).map eraseCls = es.map eraseCls := by
  induction es with
  | nil => rfl
  | cons e rest ih => cases e <;> simp [searchElem, eraseCls, ih]

/-- C8: after a `search(term)` pass a node is highlighted exactly when
the term is non-empty and a case-insensitive substring of the node's
name or type, dimmed exactly when the term is non-empty and matches
neither, and neutral (neither class) when the term is empty — whatever
classes the node carried before; and the search pass changes no
placement content and no view state, only the node classes and the
stored term. -/
theorem C8_search_classification :
    (∀ (term name ty : String) (c : NodeClasses),
        ((searchClassify term name ty c).highlighted = true ↔
          term ≠ "" ∧
            (strIncludes (jsToLower name) (jsToLower term) ||
              strIncludes (jsToLower ty) (jsToLower term)) = true) ∧
        ((searchClassify term name ty c).dimmed = true ↔
          term ≠ "" ∧
            ¬ ((strIncludes (jsToLower name) (jsToLower term) ||
              strIncludes (jsToLower ty) (jsToLower term)) = true)) ∧
        (term = "" → searchClassify term name ty c = NodeClasses.neutral)) ∧
    (∀ (st : VizState) (term : String),
        (search st term).containerElems.map eraseCls = st.containerElems.map eraseCls ∧
        (search st term).scale = st.scale ∧
        (search st term).translateX = st.translateX ∧
        (search st term).translateY = st.translateY ∧
        (search st term).currentLayout = st.currentLayout ∧
        (search st term).currentMetadata = st.currentMetadata) := by
  constructor
  · intro term name ty c
    by_cases hterm : term = ""
    · subst hterm
      exact ⟨by simp [searchClassify], by simp [searchClassify], fun _ => rfl⟩
    · cases hm : (strIncludes (jsToLower name) (jsToLower term) ||
          strIncludes (jsToLower ty) (jsToLower term)) with
      | true =>
          refine ⟨?_, ?_, fun h => absurd h hterm⟩
          · simp [searchClassify, hterm, hm]
          · simp [searchClassify, hterm, hm]
      | false =>
          refine ⟨?_, ?_, fun h => absurd h hterm⟩
          · simp [searchClassify, hterm, hm]
          · simp [searchClassify, hterm, hm]
  · intro st term
    exact ⟨map_eraseCls_searchElem term st.containerElems, rfl, rfl, rfl, rfl, rfl⟩

/-- C8 witness: the specification's own example — searching "conv" over
nodes named conv1, bn1 and fc highlights conv1, dims bn1, and the empty
term leaves fc neutral. -/
theorem C8_search_classification_witness :
    (searchClassify ("conv") ("conv1") ("Conv2D") NodeClasses.neutral).highlighted = true ∧
    (searchClassify ("conv") ("bn1") ("BatchNorm") NodeClasses.neutral).dimmed = true ∧
    searchClassify ("") ("fc") ("Dense") NodeClasses.neutral = NodeClasses.neutral := by
  refine ⟨?_, ?_, ?_⟩
  · exact ((C8_search_classification.1 ("conv") ("conv1") ("Conv2D")
      NodeClasses.neutral).1).mpr ⟨by decide, by decide⟩
  · exact ((C8_search_classification.1 ("conv") ("bn1") ("BatchNorm")
      NodeClasses.neutral).2.1).mpr ⟨by decide, by decide⟩
  · exact (C8_search_classification.1 ("") ("fc") ("Dense") NodeClasses.neutral).2.2 rfl

lemma find?_name_first : ∀ (pre rest : List ModelLayer) (nm : String) (a : ModelLayer),
    (∀ x ∈ pre, x.name ≠ nm) → a.name = nm →
    (pre ++ a :: rest).find? (fun l => l.name == nm) = some a := by
  intro pre
  induction pre with
  | nil =>
      intro rest nm a _ ha
      rw [List.nil_append]
      exact List.find?_cons_of_pos _ (by simp [ha])
  | cons x xs ih =>
      intro rest nm a h ha
      rw [List.cons_append, List.find?_cons_of_neg]
      · exact ih rest nm a (fun y hy => h y (List.mem_cons_of_mem x hy)) ha
      · simp only [beq_iff_eq]
        exact h x (List.mem_cons_self x xs)

/-- First of two layers sharing the name "w". -/
def dupA : ModelLayer := { name := "w", type := "Conv", parameters := 1 }

/-- Second of two layers sharing the name "w". -/
def dupB : ModelLayer := { name := "w", type := "Dense", parameters := 2 }

/-- C10: the selection event resolves a node by taking the first layer
whose name equals the node's displayed name, so in a model containing
two distinct layers with the same name — the first preceded by no other
layer of that name — the later-placed node resolves to the earlier
layer's record, and selecting both duplicate-named nodes yields that
same first record twice. -/
theorem C10_duplicate_name_resolution :
    ∀ (pre mid post : List ModelLayer) (a b : ModelLayer),
      a ≠ b → a.name = b.name → (∀ x ∈ pre, x.name ≠ a.name) →
      resolveLayer { layers := pre ++ a :: (mid ++ b :: post) } b.name = some a ∧
      resolveLayer { layers := pre ++ a :: (mid ++ b :: post) } a.name = some a ∧
      resolveAll { layers := pre ++ a :: (mid ++ b :: post) } [a, b] = [a, a] := by
  intro pre mid post a b _hab hname hpre
  have h1 : resolveLayer { layers := pre ++ a :: (mid ++ b :: post) } b.name = some a := by
    unfold resolveLayer
    exact find?_name_first pre (mid ++ b :: post) b.name a
      (fun x hx he => hpre x hx (he.trans hname.symm)) hname
  have h2 : resolveLayer { layers := pre ++ a :: (mid ++ b :: post) } a.name = some a := by
    unfold resolveLayer
    exact find?_name_first pre (mid ++ b :: post) a.name a hpre rfl
  exact ⟨h1, h2, by simp [resolveAll, h1, h2, List.reduceOption]⟩

/-- C10 witness: the two-layer model with duplicate name "w" — both
nodes resolve to the first record. -/
theorem C10_duplicate_name_resolution_witness :
    resolveAll { layers := [dupA, dupB] } [dupA, dupB] = [dupA, dupA] := by
  have h := C10_duplicate_name_resolution [] [] [] dupA dupB (by decide) rfl (by simp)
  exact h.2.2

lemma nodesOf_verticalAux : ∀ (L : List ModelLayer) (i : ℕ),
    nodesOf (verticalElemsAux L i) = L := by
  intro L
  induction L with
  | nil => intro i; rfl
  | cons l rest ih =>
      intro i
      by_cases h : 0 < i <;>
        simp [verticalElemsAux, nodesOf, VizElem.nodeLayer, h, ih (i + 1),
          List.filterMap_append, nodesOf] <;>
        simpa [nodesOf] using ih (i + 1)

lemma nodesOf_horizontalAux : ∀ (L : List ModelLayer) (i : ℕ),
    nodesOf (horizontalElemsAux L i) = L := by
  intro L
  induction L with
  | nil => intro i; rfl
  | cons l rest ih =>
      intro i
      by_cases h : 0 < i <;>
        simp [horizontalElemsAux, nodesOf, VizElem.nodeLayer, h, ih (i + 1),
          List.filterMap_append, nodesOf] <;>
        simpa [nodesOf] using ih (i + 1)

lemma nodesOf_circularAux : ∀ (L : List ModelLayer) (i n : ℕ),
    nodesOf (circularElemsAux L i n) = L := by
  intro L
  induction L with
  | nil => intro i n; rfl
  | cons l rest ih =>
      intro i n
      by_cases h : i < n - 1 <;>
        simp [circularElemsAux, nodesOf, VizElem.nodeLayer, h, ih (i + 1) n,
          List.filterMap_append, nodesOf] <;>
        simpa [nodesOf] using ih (i + 1) n

lemma countP_connector_verticalAux_pos : ∀ (L : List ModelLayer) (i : ℕ), 0 < i →
    (verticalElemsAux L i).countP VizElem.isConnector = L.length := by
  intro L
  induction L with
  | nil => intro i _; rfl
  | cons l rest ih =>
      intro i hi
      simp [verticalElemsAux, hi, List.countP_append, List.countP_cons,
        VizElem.isConnector, ih (i + 1) (by omega)]

lemma countP_connector_vertical (L : List ModelLayer) :
    (verticalElems L).countP VizElem.isConnector = L.length - 1 := by
  cases L with
  | nil => rfl
  | cons l rest =>
      simp [verticalElems, verticalElemsAux, List.countP_append, List.countP_cons,
        VizElem.isConnector, countP_connector_verticalAux_pos rest 1 (by omega)]

lemma countP_arrow_horizontalAux_pos : ∀ (L : List ModelLayer) (i : ℕ), 0 < i →
    (horizontalElemsAux L i).countP VizElem.isArrow = L.length := by
  intro L
  induction L with
  | nil => intro i _; rfl
  | cons l rest ih =>
      intro i hi
      simp [horizontalElemsAux, hi, List.countP_append, List.countP_cons,
        VizElem.isArrow, ih (i + 1) (by omega)]

lemma countP_arrow_horizontal (L : List ModelLayer) :
    (horizontalElems L).countP VizElem.isArrow = L.length - 1 := by
  cases L with
  | nil => rfl
  | cons l rest =>
      simp [horizontalElems, horizontalElemsAux, List.countP_append, List.countP_cons,
        VizElem.isArrow, countP_arrow_horizontalAux_pos rest 1 (by omega)]

lemma countP_line_circularAux : ∀ (L : List ModelLayer) (i n : ℕ), i + L.length = n →
    (circularElemsAux L i n).countP VizElem.isLine = L.length - 1 := by
  intro L
  induction L with
  | nil => intro i n _; rfl
  | cons l rest ih =>
      intro i n h
      by_cases hc : i < n - 1
      · have hr : rest.length ≥ 1 := by
          simp only [List.length_cons] at h; omega
        have := ih (i + 1) n (by simp only [List.length_cons] at h ⊢; omega)
        simp [circularElemsAux, hc, List.countP_append, List.countP_cons,
          VizElem.isLine, this]
        omega
      · have hrest : rest = [] := by
          simp only [List.length_cons] at h
          cases rest with
          | nil => rfl
          | cons x xs => exfalso; simp at h; omega
        subst hrest
        simp [circularElemsAux, hc, VizElem.isLine, List.countP_cons]

lemma mem_addType (acc : List String) (l : ModelLayer) (t : String) :
    t ∈ addType acc l ↔ t ∈ acc ∨ t = l.type := by
  unfold addType
  by_cases h : l.type ∈ acc
  · simp only [if_pos h]
    constructor
    · exact fun h2 => Or.inl h2
    · rintro (h2 | h2)
      · exact h2
      · rw [h2]; exact h
  · simp [if_neg h, List.mem_append]

lemma mem_foldl_addType : ∀ (L : List ModelLayer) (acc : List String) (t : String),
    t ∈ L.foldl addType acc ↔ t ∈ acc ∨ ∃ l ∈ L, l.type = t := by
  intro L
  induction L with
  | nil => intro acc t; simp
  | cons l rest ih =>
      intro acc t
      rw [List.foldl_cons, ih, mem_addType]
      constructor
      · rintro ((h | h) | ⟨x, hx, hxt⟩)
        · exact Or.inl h
        · exact Or.inr ⟨l, List.mem_cons_self l rest, h.symm⟩
        · exact Or.inr ⟨x, List.mem_cons_of_mem l hx, hxt⟩
      · rintro (h | ⟨x, hx, hxt⟩)
        · exact Or.inl (Or.inl h)
        · rcases List.mem_cons.mp hx with h2 | h2
          · subst h2; exact Or.inl (Or.inr hxt.symm)
          · exact Or.inr ⟨x, h2, hxt⟩

lemma nodup_addType (acc : List String) (l : ModelLayer) (h : acc.Nodup) :
    (addType acc l).Nodup := by
  unfold addType
  by_cases hm : l.type ∈ acc
  · simpa [if_pos hm] using h
  · simp [if_neg hm, List.nodup_append, h, hm]

lemma nodup_foldl_addType : ∀ (L : List ModelLayer) (acc : List String),
    acc.Nodup → (L.foldl addType acc).Nodup := by
  intro L
  induction L with
  | nil => exact fun acc h => h
  | cons l rest ih =>
      intro acc h
      rw [List.foldl_cons]
      exact ih (addType acc l) (nodup_addType acc l h)

lemma sum_map_add_nat (K : List String) (f g : String → ℕ) :
    (K.map (fun t => f t + g t)).sum = (K.map f).sum + (K.map g).sum := by
  induction K with
  | nil => rfl
  | cons k ks ih => simp [List.map_cons, List.sum_cons, ih]; omega

lemma sum_indicator_zero : ∀ (K : List String) (a : String), a ∉ K →
    (K.map (fun t => if a = t then (1 : ℕ) else 0)).sum = 0 := by
  intro K
  induction K with
  | nil => intro a _; rfl
  | cons k ks ih =>
      intro a ha
      have h1 : a ≠ k := fun h => ha (h ▸ List.mem_cons_self k ks)
      have h2 : a ∉ ks := fun h => ha (List.mem_cons_of_mem k h)
      simp [h1, ih a h2]

lemma sum_indicator_one : ∀ (K : List String) (a : String), K.Nodup → a ∈ K →
    (K.map (fun t => if a = t then (1 : ℕ) else 0)).sum = 1 := by
  intro K
  induction K with
  | nil => intro a _ ha; exact absurd ha (List.not_mem_nil a)
  | cons k ks ih =>
      intro a hnd ha
      rcases List.mem_cons.mp ha with h | h
      · subst h
        have : a ∉ ks := (List.nodup_cons.mp hnd).1
        simp [sum_indicator_zero ks a this]
      · have h1 : a ≠ k := by
          intro he; subst he; exact (List.nodup_cons.mp hnd).1 h
        simp [h1, ih a (List.nodup_cons.mp hnd).2 h]

lemma sum_filter_lengths : ∀ (L : List ModelLayer) (K : List String), K.Nodup →
    (∀ l ∈ L, l.type ∈ K) →
    (K.map (fun t => (L.filter (fun l => l.type == t)).length)).sum = L.length := by
  intro L
  induction L with
  | nil => intro K _ _; simp
  | cons l rest ih =>
      intro K hnd hmem
      have hstep : ∀ t : String, ((l :: rest).filter (fun x => x.type == t)).length
          = (if l.type = t then 1 else 0) + (rest.filter (fun x => x.type == t)).length := by
        intro t
        by_cases h : l.type = t
        · simp [List.filter_cons, h]; omega
        · simp [List.filter_cons, h]
      simp only [hstep]
      rw [sum_map_add_nat K (fun t => if l.type = t then 1 else 0)
        (fun t => (rest.filter (fun x => x.type == t)).length)]
      rw [sum_indicator_one K l.type hnd (hmem l (List.mem_cons_self l rest))]
      rw [ih K hnd (fun x hx => hmem x (List.mem_cons_of_mem l hx))]
      simp only [List.length_cons]
      omega

lemma nodesOf_treeElems (L : List ModelLayer) :
    nodesOf (treeElems L) = (treeGroups L).flatMap (fun g => g.2) := by
  unfold treeElems nodesOf
  induction treeGroups L with
  | nil => rfl
  | cons g gs ih =>
      simp only [List.flatMap_cons, List.filterMap_append, ih]
      congr 1
      rw [List.filterMap_map]
      have h2 : (VizElem.nodeLayer ∘ fun p : ℕ × ModelLayer =>
          VizElem.node p.2 p.1 NodeClasses.neutral) = some ∘ Prod.snd := by
        funext p; rfl
      rw [h2, List.filterMap_eq_map]
      exact List.enum_map_snd g.2

lemma treeGroups_sum (L : List ModelLayer) :
    ((treeGroups L).map (fun g => g.2.length)).sum = L.length := by
  unfold treeGroups
  rw [List.map_map]
  exact sum_filter_lengths L (treeTypes L)
    (nodup_foldl_addType L [] List.nodup_nil)
    (fun l hl => (mem_foldl_addType L [] l.type).mpr (Or.inr ⟨l, hl, rfl⟩))

lemma length_flatMap_treeGroups (L : List ModelLayer) :
    ((treeGroups L).flatMap (fun g => g.2)).length = L.length := by
  rw [List.length_flatMap]
  have h2 : (List.length ∘ fun g : String × List ModelLayer => g.2) =
      fun g : String × List ModelLayer => g.2.length := by
    funext g; rfl
  rw [h2, treeGroups_sum]

/-- C5: every layout places exactly one node per layer — `N` placements
for an `N`-layer model — the vertical layout draws `N - 1` connectors,
the horizontal layout `N - 1` arrow markers, the circular layout
`N - 1` connection lines (so one layer yields none, with natural
subtraction covering `N = 0`), and the tree layout's total node count
across its type groups is again `N`. -/
theorem C5_placement_counts :
    ∀ L : List ModelLayer,
      (nodesOf (verticalElems L)).length = L.length ∧
      (verticalElems L).countP VizElem.isConnector = L.length - 1 ∧
      (nodesOf (horizontalElems L)).length = L.length ∧
      (horizontalElems L).countP VizElem.isArrow = L.length - 1 ∧
      (nodesOf (circularElems L)).length = L.length ∧
      (circularElems L).countP VizElem.isLine = L.length - 1 ∧
      (nodesOf (treeElems L)).length = L.length ∧
      ((treeGroups L).map (fun g => g.2.length)).sum = L.length := by
  intro L
  refine ⟨?_, countP_connector_vertical L, ?_, countP_arrow_horizontal L, ?_, ?_, ?_,
    treeGroups_sum L⟩
  · rw [verticalElems, nodesOf_verticalAux L 0]
  · rw [horizontalElems, nodesOf_horizontalAux L 0]
  · rw [circularElems, nodesOf_circularAux L 0 L.length]
  · rw [circularElems]
    exact countP_line_circularAux L 0 L.length (by omega)
  · rw [nodesOf_treeElems L, length_flatMap_treeGroups L]

lemma line_mem_circularAux : ∀ (L : List ModelLayer) (i n a b : ℕ), i + L.length = n →
    (VizElem.line a b ∈ circularElemsAux L i n ↔ i ≤ a ∧ a < n - 1 ∧ b = a + 1) := by
  intro L
  induction L with
  | nil =>
      intro i n a b h
      simp only [List.length_nil, Nat.add_zero] at h
      simp [circularElemsAux]
      omega
  | cons l rest ih =>
      intro i n a b h
      have h2 : i + 1 + rest.length = n := by
        simp only [List.length_cons] at h; omega
      by_cases hc : i < n - 1 <;>
        simp [circularElemsAux, hc, ih (i + 1) n a b h2] <;> omega

/-- The four-layer model used to instantiate the circular layout. -/
def circ4 : List ModelLayer :=
  [ { name := "l0", type := "A", parameters := 0 },
    { name := "l1", type := "A", parameters := 0 },
    { name := "l2", type := "A", parameters := 0 },
    { name := "l3", type := "A", parameters := 0 } ]

/-- C4: for an `N`-layer model (`N ≥ 1`) the circular layout uses
`radius = clamp(N*15, 200, 300)` and a square container of side
`2*radius + 150 + 100`, places node `i` at
`center + radius*(cos θ_i, sin θ_i)` with `θ_i = (i/N)*2π - π/2` (node 0
at the top for every `N`; for `N = 4` the four angles are `-π/2`, `0`,
`π/2`, `π` in index order), draws a straight connector from node `i` to
node `i+1` exactly for `i ∈ [0, N-2]` with no connector from the last
node back to the first, and each connector's length is the Euclidean
distance `|p2 - p1|` of its endpoints with rotation
`atan2(Δy, Δx) * 180/π`. -/
theorem C4_circular_geometry (L : List ModelLayer) (h : 1 ≤ L.length) :
    circleRadius L.length = max 200 (min 300 ((L.length : ℚ) * 15)) ∧
    circleSize L.length = 2 * circleRadius L.length + 150 + 100 ∧
    (∀ i : ℕ, circlePos L.length i =
      ((circleCenter L.length : ℝ) +
          (circleRadius L.length : ℝ) * Real.cos (circleAngle L.length i),
       (circleCenter L.length : ℝ) +
          (circleRadius L.length : ℝ) * Real.sin (circleAngle L.length i))) ∧
    (∀ i : ℕ, circleAngle L.length i =
      ((i : ℝ) / (L.length : ℝ)) * (2 * Real.pi) - Real.pi / 2) ∧
    circleAngle L.length 0 = -(Real.pi / 2) ∧
    (circleAngle 4 0 = -(Real.pi / 2) ∧ circleAngle 4 1 = 0 ∧
      circleAngle 4 2 = Real.pi / 2 ∧ circleAngle 4 3 = Real.pi) ∧
    (∀ a b : ℕ, VizElem.line a b ∈ circularElems L ↔ a < L.length - 1 ∧ b = a + 1) ∧
    VizElem.line (L.length - 1) 0 ∉ circularElems L ∧
    (∀ x1 y1 x2 y2 : ℝ,
      lineLength x1 y1 x2 y2 = Complex.abs (⟨x2 - x1, y2 - y1⟩ : ℂ) ∧
      lineAngleDeg x1 y1 x2 y2 = mathAtan2 (y2 - y1) (x2 - x1) * 180 / Real.pi) := by
  refine ⟨?_, ?_, fun i => rfl, fun i => rfl, ?_, ⟨?_, ?_, ?_, ?_⟩, ?_, ?_, ?_⟩
  · unfold circleRadius
    rcases le_total ((L.length : ℚ) * 15) 200 with h1 | h1 <;>
      rcases le_total ((L.length : ℚ) * 15) 300 with h2 | h2 <;>
      simp [min_def, max_def] <;> split_ifs <;> linarith
  · unfold circleSize; ring
  · unfold circleAngle; simp
  · unfold circleAngle; simp
  · unfold circleAngle; push_cast; ring
  · unfold circleAngle; push_cast; ring
  · unfold circleAngle; push_cast; ring
  · intro a b
    have hiff := line_mem_circularAux L 0 L.length a b (by omega)
    rw [circularElems]
    rw [hiff]
    omega
  · intro hm
    rw [circularElems] at hm
    obtain ⟨-, h2, -⟩ :=
      (line_mem_circularAux L 0 L.length (L.length - 1) 0 (by omega)).mp hm
    omega
  · intro x1 y1 x2 y2
    refine ⟨?_, rfl⟩
    unfold lineLength
    rw [Complex.abs_apply, Complex.normSq_mk]
    congr 1
    ring

/-- C4 witness: the four-layer model — node 1 sits at angle 0 and the
connector from node 0 to node 1 is drawn. -/
theorem C4_circular_geometry_witness :
    circleAngle 4 1 = 0 ∧ VizElem.line 0 1 ∈ circularElems circ4 := by
  have h := C4_circular_geometry circ4 (by decide)
  exact ⟨h.2.2.2.2.2.1.2.1, (h.2.2.2.2.2.2.1 0 1).mpr (by decide)⟩

/-- First layer ("a", type conv) of the tree-layout counterexample
model. -/
def cA : ModelLayer := { name := "a", type := "conv", parameters := 1 }

/-- Second layer ("b", type fc) of the tree-layout counterexample
model. -/
def cB : ModelLayer := { name := "b", type := "fc", parameters := 2 }

/-- Third layer ("c", type conv) of the tree-layout counterexample
model. -/
def cC : ModelLayer := { name := "c", type := "conv", parameters := 3 }

/-- Three-layer model whose tree layout groups layers out of model
order. -/
def mTree : ModelMetadata := { layers := [cA, cB, cC] }

/-- C7 counterexample: under the tree layout the rendered node order is
a, c, b (grouped by type), so selecting the nodes of layers c and b
(document positions 1 and 2) emits the records as `[c, b]`, while those
two records in original model order are `[b, c]` — the carried list is
not in original model order. -/
theorem C7_counterexample :
    nodesOf (treeElems mTree.layers) = [cA, cC, cB] ∧
    resolveAll mTree
      (selectedInOrder (nodesOf (treeElems mTree.layers)) ({1, 2} : Finset ℕ))
      = [cC, cB] ∧
    mTree.layers.filter (fun l => l == cB || l == cC) = [cB, cC] ∧
    ([cC, cB] : List ModelLayer) ≠ [cB, cC] := by
  refine ⟨by decide, by decide, by decide, by decide⟩

/-- C7 amended: after a single activation the dispatched
selection-changed event carries the selected count and the name-resolved
records of the selected nodes in rendered (document) order — which
coincides with original model order for the vertical, horizontal and
circular layouts, the tree layout ordering by type group instead — the
new selection is the toggled set regardless of its size (never
truncated), and the surfaced outcome follows the count policy: 0 or 1
hides the comparison, 2 or 3 opens the comparison with exactly the
carried records, more than 3 raises the overflow warning. -/
theorem C7_selection_event_policy :
    (∀ (m : ModelMetadata) (d : List ModelLayer) (s : Finset ℕ) (i : ℕ)
        (layer : ModelLayer),
        clickNode m d s i layer 1 =
          (toggleSel s i,
           VizEvent.layerSelection (selectedInOrder d (toggleSel s i)).length
             (resolveAll m (selectedInOrder d (toggleSel s i))))) ∧
    (∀ (c : ℕ) (ls : List ModelLayer), c ≤ 1 →
        handleLayerSelection c ls = SelectionOutcome.hidden) ∧
    (∀ (c : ℕ) (ls : List ModelLayer), 2 ≤ c → c ≤ 3 →
        handleLayerSelection c ls = SelectionOutcome.comparison ls) ∧
    (∀ (c : ℕ) (ls : List ModelLayer), 3 < c →
        handleLayerSelection c ls = SelectionOutcome.overflowWarning) ∧
    (∀ L : List ModelLayer,
        nodesOf (verticalElems L) = L ∧ nodesOf (horizontalElems L) = L ∧
        nodesOf (circularElems L) = L) := by
  refine ⟨fun m d s i layer => rfl, ?_, ?_, ?_, ?_⟩
  · intro c ls h
    unfold handleLayerSelection
    split_ifs <;> first | rfl | omega
  · intro c ls h1 h2
    unfold handleLayerSelection
    split_ifs <;> first | rfl | omega
  · intro c ls h
    unfold handleLayerSelection
    split_ifs <;> first | rfl | omega
  · intro L
    exact ⟨by rw [verticalElems, nodesOf_verticalAux L 0],
      by rw [horizontalElems, nodesOf_horizontalAux L 0],
      by rw [circularElems, nodesOf_circularAux L 0 L.length]⟩

/-- C7 witness: the count policy evaluated at concrete counts — four
selected layers raise the overflow warning, two open the comparison,
one hides it. -/
theorem C7_selection_event_policy_witness :
    handleLayerSelection 4 [] = SelectionOutcome.overflowWarning ∧
    handleLayerSelection 2 [cA, cB] = SelectionOutcome.comparison [cA, cB] ∧
    handleLayerSelection 1 [cA] = SelectionOutcome.hidden := by
  refine ⟨C7_selection_event_policy.2.2.2.1 4 [] (by omega),
    C7_selection_event_policy.2.2.1 2 [cA, cB] (by omega) (by omega),
    C7_selection_event_policy.2.1 1 [cA] (by omega)⟩

end Lucefact
